import Mathlib

/-!
Verification of the `player_scorers` pipeline (score_runner.py, batch_score.py).

The definitions below are a shallow embedding of the Python source:
pure helpers become Lean functions, the filesystem becomes an explicit
record of existence/read functions, and the asynchronous fan-out of the
orchestrator becomes an explicit list of per-adapter outcomes (asyncio.gather
with return_exceptions=True returns outcomes positionally, in invocation
order).  Machine-level JSON parsing (json.loads) is modelled by a strict
recursive-descent parser over lists of characters.
-/

set_option maxRecDepth 100000

namespace PlayerScorers

/-- ASCII lowercase map, modelling Python str.lower / re.IGNORECASE on the
ASCII characters the markers and slugs use. -/
def lcChar (c : Char) : Char :=
  match c with
  | 'A' => 'a' | 'B' => 'b' | 'C' => 'c' | 'D' => 'd' | 'E' => 'e'
  | 'F' => 'f' | 'G' => 'g' | 'H' => 'h' | 'I' => 'i' | 'J' => 'j'
  | 'K' => 'k' | 'L' => 'l' | 'M' => 'm' | 'N' => 'n' | 'O' => 'o'
  | 'P' => 'p' | 'Q' => 'q' | 'R' => 'r' | 'S' => 's' | 'T' => 't'
  | 'U' => 'u' | 'V' => 'v' | 'W' => 'w' | 'X' => 'x' | 'Y' => 'y'
  | 'Z' => 'z'
  | c => c

/-- JSON values as produced by json.loads.  Integer literals are kept as
integers; non-integral number lexemes are kept raw (their float value is
never inspected by the scorer). -/
inductive Json where
  | null : Json
  | jbool (b : Bool) : Json
  | jint (n : Int) : Json
  | jnum (raw : List Char) : Json
  | jstr (s : List Char) : Json
  | jarr (xs : List Json) : Json
  | jobj (kvs : List (List Char × Json)) : Json

/-- JSON whitespace accepted between tokens by json.loads. -/
def isJsonWs (c : Char) : Bool :=
  c = ' ' || c = '\t' || c = '\n' || c = '\r'

def skipWs (cs : List Char) : List Char :=
  cs.dropWhile isJsonWs

def hexVal (c : Char) : Option Nat :=
  if '0' ≤ c ∧ c ≤ '9' then some (c.toNat - '0'.toNat)
  else if 'a' ≤ c ∧ c ≤ 'f' then some (c.toNat - 'a'.toNat + 10)
  else if 'A' ≤ c ∧ c ≤ 'F' then some (c.toNat - 'A'.toNat + 10)
  else none

/-- Parse the body of a JSON string literal (the opening quote already
consumed), handling the escape sequences json.loads accepts and rejecting
raw control characters. -/
def parseStringBody : List Char → Option (List Char × List Char)
  | [] => none
  | '"' :: rest => some ([], rest)
  | '\\' :: e :: rest =>
    match e with
    | '"' => (parseStringBody rest).map (fun p => ('"' :: p.1, p.2))
    | '\\' => (parseStringBody rest).map (fun p => ('\\' :: p.1, p.2))
    | '/' => (parseStringBody rest).map (fun p => ('/' :: p.1, p.2))
    | 'b' => (parseStringBody rest).map (fun p => ('\x08' :: p.1, p.2))
    | 'f' => (parseStringBody rest).map (fun p => ('\x0c' :: p.1, p.2))
    | 'n' => (parseStringBody rest).map (fun p => ('\n' :: p.1, p.2))
    | 'r' => (parseStringBody rest).map (fun p => ('\r' :: p.1, p.2))
    | 't' => (parseStringBody rest).map (fun p => ('\t' :: p.1, p.2))
    | 'u' =>
      match rest with
      | h1 :: h2 :: h3 :: h4 :: rest' =>
        match hexVal h1, hexVal h2, hexVal h3, hexVal h4 with
        | some a, some b, some c, some d =>
          (parseStringBody rest').map
            (fun p => (Char.ofNat (((a * 16 + b) * 16 + c) * 16 + d) :: p.1, p.2))
        | _, _, _, _ => none
      | _ => none
    | _ => none
  | c :: rest =>
    if c.toNat < 32 then none
    else (parseStringBody rest).map (fun p => (c :: p.1, p.2))

def digitsToNat (acc : Nat) : List Char → Nat
  | [] => acc
  | c :: rest => digitsToNat (acc * 10 + (c.toNat - '0'.toNat)) rest

/-- Parse a JSON number lexeme (sign, integer part with no leading zeros,
optional fraction and exponent).  Pure integer lexemes become `jint`;
anything with a fraction or exponent is kept as a raw lexeme. -/
def parseNumber (cs : List Char) : Option (Json × List Char) :=
  let (sign, cs1) : Bool × List Char :=
    match cs with
    | '-' :: rest => (true, rest)
    | _ => (false, cs)
  let intDigits := cs1.takeWhile Char.isDigit
  let afterInt := cs1.dropWhile Char.isDigit
  if intDigits.isEmpty then none
  else if 1 < intDigits.length ∧ intDigits.headD '0' = '0' then none
  else
    let (fracDigits, afterFrac) : List Char × List Char :=
      match afterInt with
      | '.' :: rest => (rest.takeWhile Char.isDigit, rest.dropWhile Char.isDigit)
      | _ => ([], afterInt)
    let hasFracDot := match afterInt with | '.' :: _ => true | _ => false
    if hasFracDot && fracDigits.isEmpty then none
    else
      let (hasExp, expDigits, afterExp) : Bool × List Char × List Char :=
        match afterFrac with
        | 'e' :: rest | 'E' :: rest =>
          let rest2 := match rest with
            | '+' :: r => r
            | '-' :: r => r
            | r => r
          (true, rest2.takeWhile Char.isDigit, rest2.dropWhile Char.isDigit)
        | _ => (false, [], afterFrac)
      if hasExp && expDigits.isEmpty then none
      else if hasFracDot || hasExp then
        let lexlen := cs.length - afterExp.length
        some (Json.jnum (cs.take lexlen), afterExp)
      else
        let n : Int := Int.ofNat (digitsToNat 0 intDigits)
        some (Json.jint (if sign then -n else n), afterInt)

/-- Insert a key into an object under construction the way a Python dict
assignment does: an existing key keeps its position but takes the new
value; a new key is appended. -/
def insertKV (k : List Char) (v : Json) : List (List Char × Json) → List (List Char × Json)
  | [] => [(k, v)]
  | (k', v') :: tl => if k' = k then (k, v) :: tl else (k', v') :: insertKV k v tl

mutual

/-- Recursive-descent JSON value parser (fuel-indexed), modelling
json.loads' grammar. -/
def parseValue : Nat → List Char → Option (Json × List Char)
  | 0, _ => none
  | fuel + 1, cs =>
    match skipWs cs with
    | 'n' :: 'u' :: 'l' :: 'l' :: rest => some (Json.null, rest)
    | 't' :: 'r' :: 'u' :: 'e' :: rest => some (Json.jbool true, rest)
    | 'f' :: 'a' :: 'l' :: 's' :: 'e' :: rest => some (Json.jbool false, rest)
    | '"' :: rest => (parseStringBody rest).map (fun p => (Json.jstr p.1, p.2))
    | '[' :: rest =>
      (match skipWs rest with
       | ']' :: rest' => some (Json.jarr [], rest')
       | _ => parseItems fuel rest [])
    | '{' :: rest =>
      (match skipWs rest with
       | '}' :: rest' => some (Json.jobj [], rest')
       | _ => parseMembers fuel rest [])
    | c :: rest =>
      if c = '-' ∨ c.isDigit then parseNumber (c :: rest) else none
    | [] => none

/-- Parse the elements of a non-empty JSON array, accumulating in order. -/
def parseItems : Nat → List Char → List Json → Option (Json × List Char)
  | 0, _, _ => none
  | fuel + 1, cs, acc =>
    match parseValue fuel cs with
    | none => none
    | some (v, rest) =>
      match skipWs rest with
      | ',' :: rest' => parseItems fuel rest' (v :: acc)
      | ']' :: rest' => some (Json.jarr (v :: acc).reverse, rest')
      | _ => none

/-- Parse the members of a non-empty JSON object; duplicate keys behave
like repeated dict assignment (last value wins, first position kept). -/
def parseMembers : Nat → List Char → List (List Char × Json) → Option (Json × List Char)
  | 0, _, _ => none
  | fuel + 1, cs, acc =>
    match skipWs cs with
    | '"' :: rest =>
      (match parseStringBody rest with
       | none => none
       | some (key, rest') =>
         match skipWs rest' with
         | ':' :: rest'' =>
           (match parseValue fuel rest'' with
            | none => none
            | some (v, rest3) =>
              match skipWs rest3 with
              | ',' :: rest4 => parseMembers fuel rest4 (insertKV key v acc)
              | '}' :: rest4 => some (Json.jobj (insertKV key v acc), rest4)
              | _ => none)
         | _ => none)
    | _ => none

end

/-- json.loads: parse one value and require only trailing whitespace.
(The non-standard NaN/Infinity literals json.loads also accepts are not
modelled; no scorer reply the claims touch uses them.) -/
def jsonLoads (cs : List Char) : Option Json :=
  match parseValue (cs.length + 1) cs with
  | some (v, rest) => if (skipWs rest).isEmpty then some v else none
  | none => none

/-! ## _extract_json_object (score_runner.py lines 168-197) -/

/-- Whitespace of the regex class \s used by the fenced-block pattern. -/
def isReWs (c : Char) : Bool :=
  c = ' ' || c = '\t' || c = '\n' || c = '\r' || c = '\x0b' || c = '\x0c'

def skipReWs (cs : List Char) : List Char :=
  cs.dropWhile isReWs

def fenceTag : List Char := ['`', '`', '`', 'j', 's', 'o', 'n']

def fenceTicks : List Char := ['`', '`', '`']

/-- Lazy search for the closing brace of the fenced group: the first
brace-character followed (after \s*) by three backticks ends the group,
mirroring the lazy quantifier in the pattern used by the source. -/
def fenceScanClose (acc : List Char) : List Char → Option (List Char)
  | [] => none
  | c :: rest =>
    if c = '}' && fenceTicks.isPrefixOf (skipReWs rest) then
      some ((c :: acc).reverse)
    else
      fenceScanClose (c :: acc) rest

/-- Try to match the fenced pattern at the head of the text. -/
def fenceTryAt (cs : List Char) : Option (List Char) :=
  if fenceTag.isPrefixOf cs then
    match skipReWs (cs.drop 7) with
    | '{' :: rest => fenceScanClose ['{'] rest
    | _ => none
  else none

/-- The group captured by re.search of the fenced-code-block pattern:
scan the text left to right and return the first position where the whole
pattern matches, with its lazily-shortest group. -/
def fencedCandidate : List Char → Option (List Char)
  | [] => none
  | c :: rest =>
    match fenceTryAt (c :: rest) with
    | some g => some g
    | none => fencedCandidate rest

/-- Brace-depth walk from an opening brace, as the source's loop does:
depth goes up on each open brace, down on each close brace, and the span
ends at the close brace that returns the depth to zero. -/
def walkAux : Int → List Char → List Char → Option (List Char × List Char)
  | _, _, [] => none
  | depth, acc, c :: rest =>
    if c = '{' then walkAux (depth + 1) (c :: acc) rest
    else if c = '}' then
      if depth = 1 then some ((c :: acc).reverse, rest)
      else walkAux (depth - 1) (c :: acc) rest
    else walkAux depth (c :: acc) rest

/-- The first top-level balanced brace span of a text starting at an
opening brace, plus the remainder of the text after it (the source first
checks that text.find found an opening brace at all). -/
def walkSpan (s : List Char) : Option (List Char × List Char) :=
  match s with
  | c :: rest => if c = '{' then walkAux 0 [] (c :: rest) else none
  | [] => none

/-- The substring the source's brace-depth scan would hand to json.loads:
everything from the first opening brace to the brace closing it. -/
def balancedCandidate (cs : List Char) : Option (List Char) :=
  match walkSpan (cs.dropWhile (fun c => c != '{')) with
  | some (span, _) => some span
  | none => none

/-- Strategy (c) of the extractor: parse the first balanced span; a parse
failure aborts (the source breaks out of its loop and raises). -/
def balancedResult (cs : List Char) : Option Json :=
  match balancedCandidate cs with
  | some span => jsonLoads span
  | none => none

/-- _extract_json_object: (a) parse the whole text, (b) parse the group of
the first fenced-json code block, (c) parse the first balanced brace span;
`none` models the ValueError raised when all three fail. -/
def extractJsonObject (cs : List Char) : Option Json :=
  match jsonLoads cs with
  | some v => some v
  | none =>
    match fencedCandidate cs with
    | some g =>
      (match jsonLoads g with
       | some v => some v
       | none => balancedResult cs)
    | none => balancedResult cs

/-! ## _strip_think_blocks (score_runner.py lines 161-165) -/

def thinkOpen : List Char := ['<', 't', 'h', 'i', 'n', 'k', '>']

def thinkClose : List Char := ['<', '/', 't', 'h', 'i', 'n', 'k', '>']

/-- Case-insensitive literal-prefix test (re.IGNORECASE). -/
def ciStarts : List Char → List Char → Bool
  | [], _ => true
  | _ :: _, [] => false
  | a :: p, b :: s => (lcChar a == lcChar b) && ciStarts p s

/-- Index of the first case-insensitive occurrence of a (non-empty)
pattern. -/
def findCI (p : List Char) : List Char → Option Nat
  | [] => none
  | c :: rest =>
    if ciStarts p (c :: rest) then some 0
    else (findCI p rest).map Nat.succ

/-- No case-insensitive occurrence of the pattern anywhere in the text. -/
def noOccCI (p : List Char) : List Char → Bool
  | [] => true
  | c :: rest => !ciStarts p (c :: rest) && noOccCI p rest

/-- No case-sensitive occurrence of the pattern anywhere in the text. -/
def noOccS (p : List Char) : List Char → Bool
  | [] => true
  | c :: rest => !p.isPrefixOf (c :: rest) && noOccS p rest

/-- Global substitution of the lazy region pattern: remove each region
from a case-insensitive open marker to the nearest following close
marker, continuing after the removed region. -/
def removeRegions : Nat → List Char → List Char
  | 0, s => s
  | fuel + 1, s =>
    match findCI thinkOpen s with
    | none => s
    | some i =>
      let afterOpen := (s.drop i).drop 7
      match findCI thinkClose afterOpen with
      | none => s
      | some j => s.take i ++ removeRegions fuel ((afterOpen.drop j).drop 8)

/-- Global substitution of lone open/close markers (case-insensitive). -/
def removeLone : Nat → List Char → List Char
  | 0, s => s
  | _, [] => []
  | fuel + 1, c :: rest =>
    if ciStarts thinkClose (c :: rest) then removeLone fuel ((c :: rest).drop 8)
    else if ciStarts thinkOpen (c :: rest) then removeLone fuel ((c :: rest).drop 7)
    else c :: removeLone fuel rest

/-- _strip_think_blocks: first delete every delimited region, then every
lone marker left over. -/
def stripThinkBlocks (cs : List Char) : List Char :=
  let r := removeRegions cs.length cs
  removeLone r.length r

/-! ## ScoreOutput (score_runner.py lines 44-61) -/

/-- The fields of the ScoreOutput pydantic model.  A bare record holds a
candidate; `mkScoreOutput` is its validating constructor. -/
structure ScoreOutput where
  model_name : String
  current_rating : Int
  future_rating : Int
  current_confidence : Int
  future_confidence : Int
  reasoning : List String
  timestamp : String
  version : String
deriving DecidableEq

/-- The declared field constraints: ratings in [1,9], confidences in
[0,100], reasoning exactly three items (min_items/max_items together with
the ensure_three_bullets validator). -/
def scoreOutputOk (c : ScoreOutput) : Bool :=
  (1 ≤ c.current_rating && c.current_rating ≤ 9) &&
  (1 ≤ c.future_rating && c.future_rating ≤ 9) &&
  (0 ≤ c.current_confidence && c.current_confidence ≤ 100) &&
  (0 ≤ c.future_confidence && c.future_confidence ≤ 100) &&
  c.reasoning.length == 3

/-- Pydantic construction: succeed with the record unchanged when every
constraint holds, fail otherwise (rejected, never clamped). -/
def mkScoreOutput (c : ScoreOutput) : Option ScoreOutput :=
  if scoreOutputOk c then some c else none

def asStr : Json → Option String
  | Json.jstr s => some (String.mk s)
  | _ => none

def asInt : Json → Option Int
  | Json.jint n => some n
  | _ => none

def asStrList : Json → Option (List String)
  | Json.jarr xs => xs.mapM asStr
  | _ => none

def getKey (k : List Char) : List (List Char × Json) → Option Json
  | [] => none
  | (k', v) :: tl => if k' = k then some v else getKey k tl

/-- ScoreOutput.model_validate on a decoded JSON value: requires an object
with the typed required fields, takes the declared default for `version`,
then applies the validating constructor. -/
def scoreOutputOfJson : Json → Option ScoreOutput
  | Json.jobj kvs => do
    let mn ← (getKey (("model_name").data) kvs).bind asStr
    let cr ← (getKey (("current_rating").data) kvs).bind asInt
    let fr ← (getKey (("future_rating").data) kvs).bind asInt
    let cc ← (getKey (("current_confidence").data) kvs).bind asInt
    let fc ← (getKey (("future_confidence").data) kvs).bind asInt
    let rs ← (getKey (("reasoning").data) kvs).bind asStrList
    let ts ← (getKey (("timestamp").data) kvs).bind asStr
    let ver ← match getKey (("version").data) kvs with
      | none => some ("1.0")
      | some j => asStr j
    mkScoreOutput ⟨mn, cr, fr, cc, fc, rs, ts, ver⟩
  | _ => none

/-! ## Adapter chains (build_chain, build_chain_plain_json,
build_chain_plain_json_for_deepseek) -/

/-- build_chain's run: the backend returned a schema-validated reply; the
orchestrator overwrites model_name with the configured identifier and
timestamp with its own UTC capture time. -/
def runStructured (modelName now : String) (reply : ScoreOutput) : ScoreOutput :=
  { reply with model_name := modelName, timestamp := now }

/-- build_chain_plain_json's run: extract a JSON object from the raw text,
validate it, then overwrite model_name and timestamp.  `none` models the
exception captured by the orchestrator's gather. -/
def runPlainJson (modelName now : String) (content : List Char) : Option ScoreOutput :=
  match extractJsonObject content with
  | none => none
  | some j =>
    match scoreOutputOfJson j with
    | none => none
    | some r => some { r with model_name := modelName, timestamp := now }

/-- build_chain_plain_json_for_deepseek's run: same, after stripping
think blocks from the raw text first. -/
def runPlainJsonDeepseek (modelName now : String) (content : List Char) : Option ScoreOutput :=
  runPlainJson modelName now (stripThinkBlocks content)

/-! ## score_all aggregation (score_runner.py lines 383-415) -/

structure ScoringError where
  model_name : String
  error : String
deriving DecidableEq

/-- One adapter's settled outcome, as returned positionally by
asyncio.gather(..., return_exceptions=True). -/
inductive AdapterResult where
  | ok (r : ScoreOutput)
  | err (e : String)
deriving DecidableEq

/-- The aggregate JSON written per player; `errors = none` means the field
is omitted from the file. -/
structure AggregateResult where
  player : String
  ratings : List ScoreOutput
  errors : Option (List ScoringError)
  generated_at : String
  schema_version : String
deriving DecidableEq

/-- The loop over zip(chains, gathered): successful results are appended
to the results list in invocation order. -/
def successesOf : List (String × AdapterResult) → List ScoreOutput
  | [] => []
  | (_, AdapterResult.ok r) :: tl => r :: successesOf tl
  | (_, AdapterResult.err _) :: tl => successesOf tl

/-- The loop over zip(chains, gathered): failures are appended to the
errors list, carrying the configured adapter identifier. -/
def failuresOf : List (String × AdapterResult) → List ScoringError
  | [] => []
  | (_, AdapterResult.ok _) :: tl => failuresOf tl
  | (n, AdapterResult.err e) :: tl => ⟨n, e⟩ :: failuresOf tl

/-- score_all after the gather: zip the configured (identifier, chain)
list with the gathered outcomes, collect successes and failures, and
assemble the aggregate, omitting `errors` when empty. -/
def scoreAllAggregate (player generatedAt : String)
    (outcomes : List (String × AdapterResult)) : AggregateResult :=
  let results := successesOf outcomes
  let errs := failuresOf outcomes
  { player := player
    ratings := results
    errors := if errs.isEmpty then none else some errs
    generated_at := generatedAt
    schema_version := ("1.0") }

/-! ## _load_merged_markdown (score_runner.py lines 200-256) -/

/-- A filesystem path: a directory (list of components) plus a file name.
Paths are taken as already resolved, so resolve() is the identity. -/
structure FPath where
  dir : List String
  name : String
deriving DecidableEq

/-- The filesystem the loader sees: existence per path, and the result of
read_text (`none` models a raised read error). -/
structure FileSys where
  present : FPath → Bool
  read : FPath → Option String

/-- Split a file name at its last dot, as Path.stem/Path.suffix do: the
dot starts a suffix only when it is neither the first nor the last
character of the name. -/
def splitName (name : String) : String × String :=
  let revCs := name.data.reverse
  let revExt := revCs.takeWhile (fun c => c != '.')
  match revCs.dropWhile (fun c => c != '.') with
  | [] => (name, String.mk [])
  | ['.'] => (name, String.mk [])
  | '.' :: revStem =>
    if revExt.isEmpty then (name, String.mk [])
    else (String.mk revStem.reverse, String.mk ('.' :: revExt.reverse))
  | _ :: _ => (name, String.mk [])

def stemOf (name : String) : String := (splitName name).1

def suffixOf (name : String) : String := (splitName name).2

def strEndsWith (s p : String) : Bool := p.data.isSuffixOf s.data

/-- Drop a known suffix from the end of a string (stem[: -len suffix]). -/
def dropEnd (s : String) (n : Nat) : String :=
  String.mk (s.data.take (s.data.length - n))

/-- The companion file name: "<stem>_extended<suffix>" gains or loses the
"_extended" marker. -/
def wantedNameOf (name : String) : String :=
  let stem := stemOf name
  let suffix := suffixOf name
  if strEndsWith stem ("_extended") then
    (dropEnd stem 9) ++ suffix
  else
    stem ++ ("_extended") ++ suffix

/-- The separator placed between the two merged documents. -/
def mergeSep : String := "\n\n---\n\n"

/-- The fallback search directory: primary.parent.parent / "player_summaries". -/
def fallbackDirOf (p : FPath) : List String :=
  p.dir.dropLast ++ [("player_summaries")]

/-- Where the loader finds the companion document, if anywhere: first in
the primary's own directory, then in the fallback directory, never the
primary itself. -/
def companionOf (fs : FileSys) (p : FPath) : Option FPath :=
  let wanted := wantedNameOf p.name
  let sameDir : FPath := ⟨p.dir, wanted⟩
  if fs.present sameDir && sameDir != p then some sameDir
  else
    let fb : FPath := ⟨fallbackDirOf p, wanted⟩
    if fs.present fb && fb != p then some fb else none

/-- _load_merged_markdown: read the primary (degrading to "" on a read
error), locate the companion, and append its text behind a separator when
it can be read. -/
def loadMergedMarkdown (fs : FileSys) (p : FPath) : String :=
  let primaryText := (fs.read p).getD (String.mk [])
  match companionOf fs p with
  | none => primaryText
  | some cp =>
    match fs.read cp with
    | some companionText => primaryText ++ mergeSep ++ companionText
    | none => primaryText

/-! ## Slugs and the batch driver (batch_score.py, score_runner.py main) -/

/-- Python str.strip(): drop leading and trailing whitespace. -/
def isPyWs (c : Char) : Bool :=
  c = ' ' || c = '\t' || c = '\n' || c = '\r' || c = '\x0b' || c = '\x0c'

def trimL (cs : List Char) : List Char :=
  ((cs.dropWhile isPyWs).reverse.dropWhile isPyWs).reverse

/-- Single-character str.replace is a character-wise map. -/
def replaceChar (a b : Char) (cs : List Char) : List Char :=
  cs.map (fun c => if c = a then b else c)

/-- _slugify: text.strip().lower().replace(" ", "_").replace("-", "_"). -/
def slugifyL (cs : List Char) : List Char :=
  replaceChar '-' '_' (replaceChar ' ' '_' ((trimL cs).map lcChar))

def slugify (s : String) : String := String.mk (slugifyL s.data)

def trimS (s : String) : String := String.mk (trimL s.data)

/-- One roster row as read from the CSV. -/
structure RosterRow where
  team_name : String
  firstName : String
  lastName : String
deriving DecidableEq

/-- The two exact stems tried in priority order for a player's summary. -/
def candidateStems (teamSlug playerSlug : String) : List String :=
  [teamSlug ++ ("_") ++ playerSlug, playerSlug]

/-- Find the summary markdown for a player among the indexed stems: the
exact candidates in priority order, then the first indexed stem that ends
with the player slug. -/
def findMd (stems : List String) (teamSlug playerSlug : String) : Option String :=
  match (candidateStems teamSlug playerSlug).find? (fun st => st ∈ stems) with
  | some st => some st
  | none => stems.find? (fun st => strEndsWith st playerSlug)

/-- The destination ratings file for a player. -/
def outputName (teamSlug playerSlug : String) : String :=
  teamSlug ++ ("_") ++ playerSlug ++ (".json")

/-- The batch driver's observable state: the set of output files present
in the ratings directory, and its running counters.  `calls` counts
invocations of the scoring subprocess. -/
structure BatchState where
  outputs : List String
  successes : Nat
  failures : Nat
  calls : Nat
deriving DecidableEq

/-- The destination a roster row targets, when the row is scoreable: rows
with missing names and rows with no matching summary file target nothing
(they are skipped before any output-existence check). -/
def rowOut (stems : List String) (row : RosterRow) : Option String :=
  let team := trimS row.team_name
  let first := trimS row.firstName
  let last := trimS row.lastName
  if team = String.mk [] || first = String.mk [] || last = String.mk [] then none
  else
    let teamSlug := slugify team
    let playerSlug := slugify (first ++ ("_") ++ last)
    match findMd stems teamSlug playerSlug with
    | none => none
    | some _ => some (outputName teamSlug playerSlug)

/-- One roster row of the driver loop: skip rows that target no output,
skip rows whose destination already exists (resumability — never
overwrite), and otherwise invoke the scorer — a success writes the
output file, a failure leaves the filesystem unchanged. -/
def processRow (stems : List String) (scoreOk : RosterRow → Bool)
    (st : BatchState) (row : RosterRow) : BatchState :=
  match rowOut stems row with
  | none => st
  | some out =>
    if out ∈ st.outputs then st
    else if scoreOk row then
      { outputs := out :: st.outputs, successes := st.successes + 1,
        failures := st.failures, calls := st.calls + 1 }
    else
      { outputs := st.outputs, successes := st.successes,
        failures := st.failures + 1, calls := st.calls + 1 }

/-- One full driver invocation over the roster. -/
def runBatch (stems : List String) (scoreOk : RosterRow → Bool)
    (st : BatchState) (rows : List RosterRow) : BatchState :=
  rows.foldl (processRow stems scoreOk) st

/-! ## Reference definitions written from the specification's wording
(used only to compare against the code-derived definitions above). -/

/-- The per-character transform the slug claim describes once amended:
spaces and hyphens become underscores, letters are lowercased, everything
else is kept. -/
def slugCharSpec (c : Char) : Char :=
  if c = ' ' ∨ c = '-' then '_' else lcChar c

/-- The slug transform stated declaratively: trim, then map the
per-character transform. -/
def slugifySpec (cs : List Char) : List Char :=
  (trimL cs).map slugCharSpec

/-! ## Concrete fixtures used by witnesses and counterexamples. -/

/-- A raw plain-JSON reply whose body self-reports a foreign model name
and timestamp. -/
def rawReplyFix : List Char :=
  ("\x7b\"model_name\": \"self-reported\", \"current_rating\": 7, " ++
   "\"future_rating\": 6, \"current_confidence\": 80, " ++
   "\"future_confidence\": 70, " ++
   "\"reasoning\": [\"r1\", \"r2\", \"r3\"], " ++
   "\"timestamp\": \"1999-01-01T00:00:00+00:00\"\x7d").data

/-- What the orchestrator should hand back for `rawReplyFix` when the
configured identifier is "gpt-5" and the capture time is T0. -/
def stampedFix : ScoreOutput :=
  { model_name := ("gpt-5"), current_rating := 7, future_rating := 6,
    current_confidence := 80, future_confidence := 70,
    reasoning := [("r1"), ("r2"), ("r3")],
    timestamp := ("2025-06-01T12:00:00+00:00"), version := ("1.0") }

/-- A filesystem with a primary document and a readable companion in the
same directory. -/
def fsMerge : FileSys :=
  { present := fun p =>
      p = (⟨[("root"), ("sums")], ("a.md")⟩ : FPath) ||
      p = (⟨[("root"), ("sums")], ("a_extended.md")⟩ : FPath)
  , read := fun p =>
      if p = (⟨[("root"), ("sums")], ("a.md")⟩ : FPath) then some ("X")
      else if p = (⟨[("root"), ("sums")], ("a_extended.md")⟩ : FPath) then some ("Y")
      else none }

/-- A filesystem whose companion exists but cannot be read. -/
def fsBadCompanion : FileSys :=
  { present := fun p =>
      p = (⟨[("d")], ("b.md")⟩ : FPath) ||
      p = (⟨[("d")], ("b_extended.md")⟩ : FPath)
  , read := fun p =>
      if p = (⟨[("d")], ("b.md")⟩ : FPath) then some ("P") else none }

/-- Whether one gathered outcome is a failure. -/
def isErr : AdapterResult → Bool
  | AdapterResult.ok _ => false
  | AdapterResult.err _ => true

/-! # Theorems -/

theorem successes_failures_length (outcomes : List (String × AdapterResult)) :
    (successesOf outcomes).length + (failuresOf outcomes).length = outcomes.length := by
  induction outcomes with
  | nil => rfl
  | cons hd tl ih =>
    obtain ⟨n, r⟩ := hd
    cases r with
    | ok x =>
      simp only [successesOf, failuresOf, List.length_cons]
      omega
    | err e =>
      simp only [successesOf, failuresOf, List.length_cons]
      omega

theorem failuresOf_nil_iff (outcomes : List (String × AdapterResult)) :
    failuresOf outcomes = [] ↔ outcomes.all (fun p => !isErr p.2) = true := by
  induction outcomes with
  | nil => simp [failuresOf]
  | cons hd tl ih =>
    obtain ⟨n, r⟩ := hd
    cases r with
    | ok x => simpa [failuresOf, isErr] using ih
    | err e => simp [failuresOf, isErr]

theorem failuresOf_model_names (outcomes : List (String × AdapterResult))
    (h : outcomes.all (fun p => isErr p.2) = true) :
    (failuresOf outcomes).map ScoringError.model_name = outcomes.map Prod.fst := by
  induction outcomes with
  | nil => rfl
  | cons hd tl ih =>
    obtain ⟨n, r⟩ := hd
    simp only [List.all_cons, Bool.and_eq_true] at h
    cases r with
    | ok x => simp [isErr] at h
    | err e => simp [failuresOf, ih h.2]

theorem successesOf_nil_of_all_err (outcomes : List (String × AdapterResult))
    (h : outcomes.all (fun p => isErr p.2) = true) :
    successesOf outcomes = [] := by
  induction outcomes with
  | nil => rfl
  | cons hd tl ih =>
    obtain ⟨n, r⟩ := hd
    simp only [List.all_cons, Bool.and_eq_true] at h
    cases r with
    | ok x => simp [isErr] at h
    | err e => simp only [successesOf]; exact ih h.2

theorem failuresOf_isEmpty_false (outcomes : List (String × AdapterResult))
    (h0 : failuresOf outcomes ≠ []) :
    (failuresOf outcomes).isEmpty = false := by
  cases hcase : failuresOf outcomes with
  | nil => exact absurd hcase h0
  | cons a l => rfl

/-- C1: every gathered outcome contributes to the aggregate exactly once —
|ratings| + |errors| equals the number of configured adapters, the ratings
are the successes in adapter invocation order, the `errors` field is
present iff some adapter failed, and a 3-adapter run whose second adapter
fails yields exactly 2 ratings and 1 error. -/
theorem gather_all_aggregate (player gat : String)
    (outcomes : List (String × AdapterResult))
    (n1 n2 n3 : String) (r1 r3 : ScoreOutput) (e : String) :
    ((scoreAllAggregate player gat outcomes).ratings.length
       + ((scoreAllAggregate player gat outcomes).errors.getD []).length
       = outcomes.length)
    ∧ (scoreAllAggregate player gat outcomes).ratings = successesOf outcomes
    ∧ ((scoreAllAggregate player gat outcomes).errors ≠ none
        ↔ outcomes.any (fun p => isErr p.2) = true)
    ∧ (scoreAllAggregate player gat
        [(n1, AdapterResult.ok r1), (n2, AdapterResult.err e),
         (n3, AdapterResult.ok r3)]).ratings = [r1, r3]
    ∧ (scoreAllAggregate player gat
        [(n1, AdapterResult.ok r1), (n2, AdapterResult.err e),
         (n3, AdapterResult.ok r3)]).errors = some [⟨n2, e⟩] := by
  have hlen := successes_failures_length outcomes
  refine ⟨?_, rfl, ?_, rfl, rfl⟩
  · by_cases h0 : failuresOf outcomes = []
    · rw [h0] at hlen
      simp only [List.length_nil, Nat.add_zero] at hlen
      simp [scoreAllAggregate, h0]
      omega
    · have hne := failuresOf_isEmpty_false outcomes h0
      simp [scoreAllAggregate, hne]
      omega
  · constructor
    · intro hne
      by_contra hany
      have hall : outcomes.all (fun p => !isErr p.2) = true := by
        simp only [List.any_eq_true, not_exists, not_and] at hany
        simp only [List.all_eq_true]
        intro p hp
        have := hany p hp
        simp only [Bool.not_eq_true'] at this ⊢
        simpa using this
      have h0 : failuresOf outcomes = [] := (failuresOf_nil_iff outcomes).mpr hall
      simp [scoreAllAggregate, h0] at hne
    · intro hany
      simp only [List.any_eq_true] at hany
      obtain ⟨p, hp, hperr⟩ := hany
      by_cases h0 : failuresOf outcomes = []
      · have hall := (failuresOf_nil_iff outcomes).mp h0
        simp only [List.all_eq_true] at hall
        have := hall p hp
        simp [hperr] at this
      · have hne := failuresOf_isEmpty_false outcomes h0
        simp [scoreAllAggregate, hne]

/-- C9: a run in which every adapter fails still produces an aggregate —
with no exception propagating — whose ratings list is empty and whose
errors list carries one entry per adapter, labelled with the adapter
identifiers in order. -/
theorem zero_success_aggregate (player gat : String)
    (outcomes : List (String × AdapterResult))
    (h : outcomes.all (fun p => isErr p.2) = true) :
    (scoreAllAggregate player gat outcomes).ratings = []
    ∧ ((scoreAllAggregate player gat outcomes).errors.getD []).length
        = outcomes.length
    ∧ ((scoreAllAggregate player gat outcomes).errors.getD []).map
        ScoringError.model_name = outcomes.map Prod.fst := by
  have hsucc := successesOf_nil_of_all_err outcomes h
  have hnames := failuresOf_model_names outcomes h
  have hlen := successes_failures_length outcomes
  rw [hsucc] at hlen
  simp only [List.length_nil, Nat.zero_add] at hlen
  by_cases h0 : failuresOf outcomes = []
  · refine ⟨by simp [scoreAllAggregate, hsucc], ?_, ?_⟩
    · simp [scoreAllAggregate, h0]
      rw [h0] at hlen
      simpa using hlen
    · simp [scoreAllAggregate, h0]
      rw [h0] at hnames
      simpa using hnames.symm
  · have hne := failuresOf_isEmpty_false outcomes h0
    refine ⟨by simp [scoreAllAggregate, hsucc], ?_, ?_⟩
    · simp [scoreAllAggregate, hne]
      exact hlen
    · simp [scoreAllAggregate, hne]
      exact hnames

/-- C2: construction of a ScoreOutput candidate succeeds iff both ratings
lie in [1,9], both confidences lie in [0,100] and the reasoning list has
exactly three entries; and a accepted record is returned unchanged (no
clamping). -/
theorem score_output_validation (c : ScoreOutput) :
    ((mkScoreOutput c).isSome ↔
      (1 ≤ c.current_rating ∧ c.current_rating ≤ 9 ∧
       1 ≤ c.future_rating ∧ c.future_rating ≤ 9 ∧
       0 ≤ c.current_confidence ∧ c.current_confidence ≤ 100 ∧
       0 ≤ c.future_confidence ∧ c.future_confidence ≤ 100 ∧
       c.reasoning.length = 3))
    ∧ (∀ r, mkScoreOutput c = some r → r = c) := by
  constructor
  · simp only [mkScoreOutput]
    split
    · rename_i hok
      simp only [Option.isSome_some, true_iff]
      simp only [scoreOutputOk, Bool.and_eq_true, decide_eq_true_eq,
        beq_iff_eq] at hok
      tauto
    · rename_i hok
      simp only [Option.isSome_none, Bool.false_eq_true, false_iff]
      intro hprops
      exact hok (by
        simp only [scoreOutputOk, Bool.and_eq_true, decide_eq_true_eq,
          beq_iff_eq]
        tauto)
  · intro r h
    simp only [mkScoreOutput] at h
    split at h
    · injection h with h'
      exact h'.symm
    · cases h

/-- C2 witness: a concrete in-range record is accepted, and dropping its
current rating to 0 rejects the whole record. -/
theorem score_output_validation_witness :
    (mkScoreOutput stampedFix).isSome = true
    ∧ mkScoreOutput { stampedFix with current_rating := 0 } = none := by
  constructor
  · exact (score_output_validation stampedFix).1.mpr (by
      refine ⟨by decide, by decide, by decide, by decide, by decide,
        by decide, by decide, by decide, ?_⟩
      rfl)
  · have hiff := (score_output_validation
      { stampedFix with current_rating := 0 }).1
    have hno : ¬ ((mkScoreOutput { stampedFix with current_rating := 0 }).isSome = true) := by
      intro hs
      obtain ⟨h1, _⟩ := hiff.mp hs
      revert h1
      decide
    cases hmk : mkScoreOutput { stampedFix with current_rating := 0 } with
    | none => rfl
    | some r => rw [hmk] at hno; simp at hno

theorem runPlainJson_stamps (name now : String) (content : List Char)
    (r : ScoreOutput) (h : runPlainJson name now content = some r) :
    r.model_name = name ∧ r.timestamp = now := by
  unfold runPlainJson at h
  split at h
  · cases h
  · split at h
    · cases h
    · injection h with h'
      subst h'
      exact ⟨rfl, rfl⟩

/-- C5: each adapter chain hands the orchestrator a rating whose
model_name is the configured identifier — never what the backend
self-reported — and whose timestamp is the orchestrator's own capture
time, both overwritten after schema validation, for each of the three
chain builders. -/
theorem orchestrator_stamping (name now : String) (reply : ScoreOutput)
    (content content' : List Char) (r r' : ScoreOutput) :
    ((runStructured name now reply).model_name = name
      ∧ (runStructured name now reply).timestamp = now)
    ∧ (runPlainJson name now content = some r →
        r.model_name = name ∧ r.timestamp = now)
    ∧ (runPlainJsonDeepseek name now content' = some r' →
        r'.model_name = name ∧ r'.timestamp = now) := by
  refine ⟨⟨rfl, rfl⟩, ?_, ?_⟩
  · exact runPlainJson_stamps name now content r
  · intro h
    exact runPlainJson_stamps name now (stripThinkBlocks content') r' h

/-- C5 witness: a reply that self-reports a foreign model name and an old
timestamp comes back stamped with the configured identifier and the
orchestrator's capture time. -/
theorem orchestrator_stamping_witness :
    runPlainJson ("gpt-5") ("2025-06-01T12:00:00+00:00") rawReplyFix
      = some stampedFix
    ∧ stampedFix.model_name = ("gpt-5")
    ∧ stampedFix.timestamp = ("2025-06-01T12:00:00+00:00") := by
  have hrun : runPlainJson ("gpt-5") ("2025-06-01T12:00:00+00:00") rawReplyFix
      = some stampedFix := rfl
  exact ⟨hrun,
    (orchestrator_stamping ("gpt-5") ("2025-06-01T12:00:00+00:00")
      stampedFix rawReplyFix rawReplyFix stampedFix stampedFix).2.1 hrun⟩

/-- C9 witness: a concrete two-adapter run where both adapters fail. -/
theorem zero_success_aggregate_witness :
    (scoreAllAggregate ("P") ("T")
      [(("m1"), AdapterResult.err ("boom")),
       (("m2"), AdapterResult.err ("down"))]).ratings = []
    ∧ ((scoreAllAggregate ("P") ("T")
      [(("m1"), AdapterResult.err ("boom")),
       (("m2"), AdapterResult.err ("down"))]).errors.getD []).length = 2 := by
  have h := zero_success_aggregate ("P") ("T")
    [(("m1"), AdapterResult.err ("boom")), (("m2"), AdapterResult.err ("down"))]
    (by rfl)
  exact ⟨h.1, h.2.1⟩

/-- C8: companion resolution toggles the "_extended" stem marker; the
companion is looked for first beside the primary, then in the fallback
directory; a found, readable companion is appended behind the separator;
no companion leaves the primary text alone; and a failed primary read
degrades the primary text to the empty string instead of aborting. -/
theorem merged_markdown_behavior (fs : FileSys) (p : FPath) (t c : String) :
    (wantedNameOf ("a.md") = ("a_extended.md")
      ∧ wantedNameOf ("a_extended.md") = ("a.md"))
    ∧ (fs.read p = some t →
        fs.present ⟨p.dir, wantedNameOf p.name⟩ = true →
        (⟨p.dir, wantedNameOf p.name⟩ : FPath) ≠ p →
        fs.read ⟨p.dir, wantedNameOf p.name⟩ = some c →
        loadMergedMarkdown fs p = t ++ mergeSep ++ c)
    ∧ (fs.read p = some t →
        fs.present ⟨p.dir, wantedNameOf p.name⟩ = false →
        fs.present ⟨fallbackDirOf p, wantedNameOf p.name⟩ = true →
        (⟨fallbackDirOf p, wantedNameOf p.name⟩ : FPath) ≠ p →
        fs.read ⟨fallbackDirOf p, wantedNameOf p.name⟩ = some c →
        loadMergedMarkdown fs p = t ++ mergeSep ++ c)
    ∧ (fs.read p = some t →
        fs.present ⟨p.dir, wantedNameOf p.name⟩ = false →
        fs.present ⟨fallbackDirOf p, wantedNameOf p.name⟩ = false →
        loadMergedMarkdown fs p = t)
    ∧ (fs.read p = none →
        fs.present ⟨p.dir, wantedNameOf p.name⟩ = true →
        (⟨p.dir, wantedNameOf p.name⟩ : FPath) ≠ p →
        fs.read ⟨p.dir, wantedNameOf p.name⟩ = some c →
        loadMergedMarkdown fs p = String.mk [] ++ mergeSep ++ c) := by
  refine ⟨⟨rfl, rfl⟩, ?_, ?_, ?_, ?_⟩
  · intro hp hpres hne hc
    have hbne : ((⟨p.dir, wantedNameOf p.name⟩ : FPath) != p) = true :=
      bne_iff_ne.mpr hne
    simp [loadMergedMarkdown, companionOf, hp, hpres, hbne, hc]
  · intro hp hpres1 hpres2 hne hc
    have hbne : ((⟨fallbackDirOf p, wantedNameOf p.name⟩ : FPath) != p) = true :=
      bne_iff_ne.mpr hne
    simp [loadMergedMarkdown, companionOf, hp, hpres1, hpres2, hbne, hc]
  · intro hp hpres1 hpres2
    simp [loadMergedMarkdown, companionOf, hp, hpres1, hpres2]
  · intro hp hpres hne hc
    have hbne : ((⟨p.dir, wantedNameOf p.name⟩ : FPath) != p) = true :=
      bne_iff_ne.mpr hne
    simp [loadMergedMarkdown, companionOf, hp, hpres, hbne, hc]

/-- C8 witness: "a.md" containing "X" merges with its readable companion
"a_extended.md" containing "Y" into X, separator, Y. -/
theorem merged_markdown_behavior_witness :
    loadMergedMarkdown fsMerge ⟨[("root"), ("sums")], ("a.md")⟩
      = ("X") ++ mergeSep ++ ("Y") :=
  (merged_markdown_behavior fsMerge ⟨[("root"), ("sums")], ("a.md")⟩
      ("X") ("Y")).2.1 rfl (by decide) (by decide) rfl

/-- C10: a located companion whose read fails contributes nothing — the
loader returns the primary text alone, with no separator and no partial
companion text — whether the companion was found beside the primary or in
the fallback directory. -/
theorem companion_read_failure (fs : FileSys) (p : FPath) (t : String) :
    (fs.read p = some t →
      fs.present ⟨p.dir, wantedNameOf p.name⟩ = true →
      (⟨p.dir, wantedNameOf p.name⟩ : FPath) ≠ p →
      fs.read ⟨p.dir, wantedNameOf p.name⟩ = none →
      loadMergedMarkdown fs p = t)
    ∧ (fs.read p = some t →
      fs.present ⟨p.dir, wantedNameOf p.name⟩ = false →
      fs.present ⟨fallbackDirOf p, wantedNameOf p.name⟩ = true →
      (⟨fallbackDirOf p, wantedNameOf p.name⟩ : FPath) ≠ p →
      fs.read ⟨fallbackDirOf p, wantedNameOf p.name⟩ = none →
      loadMergedMarkdown fs p = t) := by
  constructor
  · intro hp hpres hne hc
    have hbne : ((⟨p.dir, wantedNameOf p.name⟩ : FPath) != p) = true :=
      bne_iff_ne.mpr hne
    simp [loadMergedMarkdown, companionOf, hp, hpres, hbne, hc]
  · intro hp hpres1 hpres2 hne hc
    have hbne : ((⟨fallbackDirOf p, wantedNameOf p.name⟩ : FPath) != p) = true :=
      bne_iff_ne.mpr hne
    simp [loadMergedMarkdown, companionOf, hp, hpres1, hpres2, hbne, hc]

/-- C10 witness: "b.md" containing "P" has an existing companion
"b_extended.md" that cannot be read; the merge is "P" alone. -/
theorem companion_read_failure_witness :
    loadMergedMarkdown fsBadCompanion ⟨[("d")], ("b.md")⟩ = ("P") :=
  (companion_read_failure fsBadCompanion ⟨[("d")], ("b.md")⟩ ("P")).1
    rfl (by decide) (by decide) rfl

theorem lcChar_eq_space_iff (c : Char) : lcChar c = ' ' ↔ c = ' ' := by
  unfold lcChar
  split <;> first | exact Iff.rfl | decide

theorem lcChar_eq_dash_iff (c : Char) : lcChar c = '-' ↔ c = '-' := by
  unfold lcChar
  split <;> first | exact Iff.rfl | decide

theorem slugChar_comp (c : Char) :
    (if (if lcChar c = ' ' then '_' else lcChar c) = '-' then '_'
     else (if lcChar c = ' ' then '_' else lcChar c)) = slugCharSpec c := by
  by_cases h1 : c = ' '
  · subst h1; decide
  · by_cases h2 : c = '-'
    · subst h2; decide
    · have hs : ¬ lcChar c = ' ' := fun h => h1 ((lcChar_eq_space_iff c).mp h)
      have hd : ¬ lcChar c = '-' := fun h => h2 ((lcChar_eq_dash_iff c).mp h)
      simp [slugCharSpec, hs, hd, h1, h2]

theorem slugifyL_eq_spec (cs : List Char) : slugifyL cs = slugifySpec cs := by
  unfold slugifyL slugifySpec replaceChar
  rw [List.map_map, List.map_map]
  apply List.map_congr_left
  intro a _
  simpa [Function.comp] using slugChar_comp a

/-- C7 counterexample: the code's slug transform keeps the period of
"St. Louis Blues" verbatim, so non-alphanumeric characters are not all
collapsed to underscores as the claim states. -/
theorem slug_collapse_counterexample :
    slugify ("St. Louis Blues") = ("st._louis_blues")
    ∧ ¬ (∀ ch ∈ (slugify ("St. Louis Blues")).data, ch.isAlphanum ∨ ch = '_') := by
  exact ⟨rfl, by decide⟩

/-- C7 (amended): slugs are the trim-then-per-character transform that
lowercases letters and maps exactly spaces and hyphens to underscores
(other characters are kept); the Auston Matthews row yields the expected
slugs and candidate file names; and the driver resolves the report by the
exact team_player stem first, the bare player stem second, and otherwise
the first indexed stem ending with the player slug. -/
theorem slug_transform_and_search (s tSlug pSlug : String) (stems : List String) :
    slugifyL s.data = slugifySpec s.data
    ∧ slugify ("Toronto Maple Leafs") = ("toronto_maple_leafs")
    ∧ slugify (("Auston") ++ ("_") ++ ("Matthews")) = ("auston_matthews")
    ∧ (candidateStems ("toronto_maple_leafs") ("auston_matthews")).map
        (fun st => st ++ (".md"))
      = [("toronto_maple_leafs_auston_matthews.md"), ("auston_matthews.md")]
    ∧ ((tSlug ++ ("_") ++ pSlug) ∈ stems →
        findMd stems tSlug pSlug = some (tSlug ++ ("_") ++ pSlug))
    ∧ ((tSlug ++ ("_") ++ pSlug) ∉ stems → pSlug ∈ stems →
        findMd stems tSlug pSlug = some pSlug)
    ∧ ((tSlug ++ ("_") ++ pSlug) ∉ stems → pSlug ∉ stems →
        findMd stems tSlug pSlug = stems.find? (fun st => strEndsWith st pSlug)) := by
  refine ⟨slugifyL_eq_spec s.data, rfl, rfl, rfl, ?_, ?_, ?_⟩
  · intro h
    simp [findMd, candidateStems, List.find?_cons, h]
  · intro h1 h2
    simp [findMd, candidateStems, List.find?_cons, h1, h2]
  · intro h1 h2
    simp [findMd, candidateStems, List.find?_cons, h1, h2]

/-- C7 witness: the three search-priority branches at concrete stem
indexes. -/
theorem slug_transform_and_search_witness :
    findMd [("zz"), ("toronto_maple_leafs_auston_matthews"), ("auston_matthews")]
      ("toronto_maple_leafs") ("auston_matthews")
      = some ("toronto_maple_leafs_auston_matthews")
    ∧ findMd [("zz"), ("auston_matthews")]
      ("toronto_maple_leafs") ("auston_matthews") = some ("auston_matthews")
    ∧ findMd [("zz"), ("x_auston_matthews")]
      ("toronto_maple_leafs") ("auston_matthews") = some ("x_auston_matthews") := by
  refine ⟨?_, ?_, ?_⟩
  · exact (slug_transform_and_search (("")) ("toronto_maple_leafs") ("auston_matthews")
      [("zz"), ("toronto_maple_leafs_auston_matthews"), ("auston_matthews")]).2.2.2.2.1
      (by decide)
  · exact (slug_transform_and_search (("")) ("toronto_maple_leafs") ("auston_matthews")
      [("zz"), ("auston_matthews")]).2.2.2.2.2.1 (by decide) (by decide)
  · have h := (slug_transform_and_search (("")) ("toronto_maple_leafs") ("auston_matthews")
      [("zz"), ("x_auston_matthews")]).2.2.2.2.2.2 (by decide) (by decide)
    rw [h]
    rfl

theorem runBatch_outputs_mono (stems : List String) (ok : RosterRow → Bool)
    (rows : List RosterRow) (st : BatchState) (x : String)
    (hx : x ∈ st.outputs) : x ∈ (runBatch stems ok st rows).outputs := by
  induction rows generalizing st with
  | nil => exact hx
  | cons r rows ih =>
    simp only [runBatch, List.foldl_cons] at *
    apply ih
    unfold processRow
    split
    · exact hx
    · split
      · exact hx
      · split
        · exact List.mem_cons_of_mem _ hx
        · exact hx

theorem processRow_writes (stems : List String) (ok : RosterRow → Bool)
    (st : BatchState) (r : RosterRow) (out : String)
    (hout : rowOut stems r = some out) (hok : ok r = true) :
    out ∈ (processRow stems ok st r).outputs := by
  unfold processRow
  rw [hout]
  by_cases hmem : out ∈ st.outputs
  · simp [hmem]
  · simp [hmem, hok]

theorem runBatch_covers (stems : List String) (ok : RosterRow → Bool)
    (rows : List RosterRow) (st : BatchState)
    (hall : ∀ r ∈ rows, ok r = true) :
    ∀ r ∈ rows, ∀ out, rowOut stems r = some out →
      out ∈ (runBatch stems ok st rows).outputs := by
  induction rows generalizing st with
  | nil => intro r hr; cases hr
  | cons r0 rows ih =>
    intro r hr out hout
    simp only [runBatch, List.foldl_cons]
    rcases List.mem_cons.mp hr with hr0 | hrtl
    · subst hr0
      exact runBatch_outputs_mono stems ok rows _ out
        (processRow_writes stems ok st r out hout
          (hall r (List.mem_cons_self _ _)))
    · exact ih _ (fun q hq => hall q (List.mem_cons_of_mem _ hq)) r hrtl out hout

theorem runBatch_stable (stems : List String) (ok : RosterRow → Bool)
    (rows : List RosterRow) (st : BatchState)
    (hcov : ∀ r ∈ rows, ∀ out, rowOut stems r = some out → out ∈ st.outputs) :
    runBatch stems ok st rows = st := by
  induction rows with
  | nil => rfl
  | cons r0 rows ih =>
    have hstep : processRow stems ok st r0 = st := by
      unfold processRow
      cases hro : rowOut stems r0 with
      | none => rfl
      | some out =>
        have hm := hcov r0 (List.mem_cons_self _ _) out hro
        simp [hm]
    simp only [runBatch, List.foldl_cons, hstep]
    exact ih (fun r hr out hout => hcov r (List.mem_cons_of_mem _ hr) out hout)

/-- C6 (amended): when every scoring call of the first batch run
succeeds, a second run over the same roster and report set — whatever its
scoring outcomes would be — performs zero scoring calls, writes nothing,
never overwrites an existing output, and ends with success and failure
counters both zero: its final state is exactly its initial state. -/
theorem batch_second_run_idempotent (stems : List String)
    (ok1 ok2 : RosterRow → Bool) (rows : List RosterRow) (outs0 : List String)
    (hall : ∀ r ∈ rows, ok1 r = true) :
    runBatch stems ok2
      ⟨(runBatch stems ok1 ⟨outs0, 0, 0, 0⟩ rows).outputs, 0, 0, 0⟩ rows
      = ⟨(runBatch stems ok1 ⟨outs0, 0, 0, 0⟩ rows).outputs, 0, 0, 0⟩ := by
  apply runBatch_stable
  intro r hr out hout
  exact runBatch_covers stems ok1 rows ⟨outs0, 0, 0, 0⟩ hall r hr out hout

/-- C6 counterexample: one roster row whose scoring attempt fails leaves
no output file, so the second run performs one more scoring call and
records one more failure — not the all-skip zero-call second run the
claim states. -/
theorem batch_second_run_counterexample :
    (runBatch [("t_a_b")] (fun _ => false)
      ⟨(runBatch [("t_a_b")] (fun _ => false) ⟨[], 0, 0, 0⟩
          [⟨("T"), ("A"), ("B")⟩]).outputs, 0, 0, 0⟩
      [⟨("T"), ("A"), ("B")⟩]).calls = 1
    ∧ (runBatch [("t_a_b")] (fun _ => false)
      ⟨(runBatch [("t_a_b")] (fun _ => false) ⟨[], 0, 0, 0⟩
          [⟨("T"), ("A"), ("B")⟩]).outputs, 0, 0, 0⟩
      [⟨("T"), ("A"), ("B")⟩]).failures = 1 := by
  exact ⟨rfl, rfl⟩

/-- C6 witness: the amended theorem at a concrete roster whose single
scoring call succeeded on the first run; the second run (even with a
failing scorer) is the all-skip no-op. -/
theorem batch_second_run_idempotent_witness :
    runBatch [("t_a_b")] (fun _ => false)
      ⟨(runBatch [("t_a_b")] (fun _ => true) ⟨[], 0, 0, 0⟩
          [⟨("T"), ("A"), ("B")⟩]).outputs, 0, 0, 0⟩
      [⟨("T"), ("A"), ("B")⟩]
      = ⟨(runBatch [("t_a_b")] (fun _ => true) ⟨[], 0, 0, 0⟩
          [⟨("T"), ("A"), ("B")⟩]).outputs, 0, 0, 0⟩ :=
  batch_second_run_idempotent [("t_a_b")] (fun _ => true) (fun _ => false)
    [⟨("T"), ("A"), ("B")⟩] [] (fun _ _ => rfl)

theorem fencedCandidate_none (cs : List Char) (h : noOccS fenceTag cs = true) :
    fencedCandidate cs = none := by
  induction cs with
  | nil => rfl
  | cons c rest ih =>
    simp only [noOccS, Bool.and_eq_true, Bool.not_eq_true'] at h
    simp only [fencedCandidate, fenceTryAt, h.1, Bool.false_eq_true, if_false]
    exact ih h.2

theorem dropWhile_append_of_all (pre rest : List Char)
    (h : pre.all (fun c => c != '{') = true) :
    (pre ++ rest).dropWhile (fun c => c != '{')
      = rest.dropWhile (fun c => c != '{') := by
  induction pre with
  | nil => rfl
  | cons c pre ih =>
    simp only [List.all_cons, Bool.and_eq_true] at h
    simp only [List.cons_append, List.dropWhile_cons, h.1, if_true]
    exact ih h.2

theorem walkAux_append (s t : List Char) (d : Int) (acc sp rest : List Char)
    (h : walkAux d acc s = some (sp, rest)) :
    walkAux d acc (s ++ t) = some (sp, rest ++ t) := by
  induction s generalizing d acc with
  | nil => cases h
  | cons c s ih =>
    rw [List.cons_append]
    simp only [walkAux] at h ⊢
    by_cases hc : c = '{'
    · rw [if_pos hc] at h ⊢
      exact ih _ _ h
    · rw [if_neg hc] at h ⊢
      by_cases hc2 : c = '}'
      · rw [if_pos hc2] at h ⊢
        by_cases hd : d = 1
        · rw [if_pos hd] at h ⊢
          injection h with h'
          injection h' with h1' h2'
          subst h1'
          subst h2'
          rfl
        · rw [if_neg hd] at h ⊢
          exact ih _ _ h
      · rw [if_neg hc2] at h ⊢
        exact ih _ _ h

/-- C3 (amended): a reply that is prose, then a valid JSON object whose
top-level brace span is balanced (no brace characters hiding inside its
string literals), then prose — where the whole reply is not itself JSON,
no json code fence occurs, and the leading prose contains no open brace —
extracts exactly that object; and whenever the whole reply parses as JSON,
strategy (a) wins immediately. -/
theorem extract_prose_wrapped (pre obj post : List Char) (v : Json)
    (h1 : jsonLoads (pre ++ obj ++ post) = none)
    (h2 : noOccS fenceTag (pre ++ obj ++ post) = true)
    (h3 : pre.all (fun c => c != '{') = true)
    (h4 : walkSpan obj = some (obj, []))
    (h5 : jsonLoads obj = some v) :
    extractJsonObject (pre ++ obj ++ post) = some v
    ∧ (∀ t w, jsonLoads t = some w → extractJsonObject t = some w) := by
  refine ⟨?_, fun t w h => by simp [extractJsonObject, h]⟩
  cases obj with
  | nil => rw [show walkSpan [] = none from rfl] at h4; cases h4
  | cons c tl =>
    simp only [walkSpan] at h4
    by_cases hc : c = '{'
    case neg => rw [if_neg hc] at h4; cases h4
    case pos =>
      subst hc
      rw [if_pos rfl] at h4
      unfold extractJsonObject
      rw [h1, fencedCandidate_none _ h2]
      unfold balancedResult balancedCandidate
      rw [List.append_assoc, dropWhile_append_of_all pre _ h3]
      simp only [List.cons_append, List.dropWhile_cons, bne_self_eq_false,
        Bool.false_eq_true, if_false]
      have hw := walkAux_append ('{' :: tl) post 0 [] ('{' :: tl) [] h4
      rw [List.nil_append] at hw
      rw [List.cons_append] at hw
      simp only [walkSpan, if_true]
      rw [hw]
      exact h5

/-- C3 counterexample: the middle of the reply is a valid JSON object
(whose string value contains a close brace) wrapped in prose, yet the
extractor raises: the brace-depth scan neither respects string literals
nor retries later spans. -/
theorem extract_prose_counterexample :
    extractJsonObject (("x: \x7b\"a\": \"\x7d\"\x7d y").data) = none
    ∧ jsonLoads (("\x7b\"a\": \"\x7d\"\x7d").data)
        = some (Json.jobj [(("a").data, Json.jstr (("\x7d").data))])
    ∧ ("x: \x7b\"a\": \"\x7d\"\x7d y")
        = ("x: ") ++ ("\x7b\"a\": \"\x7d\"\x7d") ++ (" y") :=
  ⟨rfl, rfl, rfl⟩

/-- C3 witness: the spec's example shape — prose, a JSON object with
nested braces, prose — at concrete input. -/
theorem extract_prose_wrapped_witness :
    extractJsonObject ((("Sure, here:\n").data)
        ++ (("\x7b\"current_rating\": 7, \"nested\": \x7b\"x\": 1\x7d\x7d").data)
        ++ (("\nThanks").data))
      = some (Json.jobj [(("current_rating").data, Json.jint 7),
          (("nested").data, Json.jobj [(("x").data, Json.jint 1)])]) :=
  (extract_prose_wrapped (("Sure, here:\n").data)
    (("\x7b\"current_rating\": 7, \"nested\": \x7b\"x\": 1\x7d\x7d").data)
    (("\nThanks").data)
    (Json.jobj [(("current_rating").data, Json.jint 7),
      (("nested").data, Json.jobj [(("x").data, Json.jint 1)])])
    rfl rfl rfl rfl rfl).1

theorem ciStarts_self_append (p t : List Char) : ciStarts p (p ++ t) = true := by
  induction p with
  | nil => rfl
  | cons a p ih => simp [ciStarts, ih]

theorem ciStarts_false_head (a b : Char) (p s : List Char)
    (h : (lcChar a == lcChar b) = false) :
    ciStarts (a :: p) (b :: s) = false := by
  simp [ciStarts, h]

theorem ciStarts_false_second (a₁ a₂ b₁ b₂ : Char) (p s : List Char)
    (h : (lcChar a₂ == lcChar b₂) = false) :
    ciStarts (a₁ :: a₂ :: p) (b₁ :: b₂ :: s) = false := by
  cases s with
  | nil => simp [ciStarts, h]
  | cons x xs => simp [ciStarts, h]

theorem findCI_self (p t : List Char) (hp : p ≠ []) :
    findCI p (p ++ t) = some 0 := by
  cases p with
  | nil => exact absurd rfl hp
  | cons a p' =>
    have h := ciStarts_self_append (a :: p') t
    rw [List.cons_append] at h
    simp [findCI, h]

theorem findCI_none_of_noOcc (p cs : List Char) (h : noOccCI p cs = true) :
    findCI p cs = none := by
  induction cs with
  | nil => rfl
  | cons c rest ih =>
    simp only [noOccCI, Bool.and_eq_true, Bool.not_eq_true'] at h
    simp [findCI, h.1, ih h.2]

theorem removeRegions_of_none (fuel : Nat) (s : List Char)
    (h : findCI thinkOpen s = none) : removeRegions fuel s = s := by
  cases fuel with
  | zero => rfl
  | succ n => simp [removeRegions, h]

theorem removeLone_of_noOcc (fuel : Nat) (s : List Char)
    (h1 : noOccCI thinkOpen s = true) (h2 : noOccCI thinkClose s = true) :
    removeLone fuel s = s := by
  induction fuel generalizing s with
  | zero => cases s <;> rfl
  | succ n ih =>
    cases s with
    | nil => rfl
    | cons c rest =>
      simp only [noOccCI, Bool.and_eq_true, Bool.not_eq_true'] at h1 h2
      simp only [removeLone, h1.1, h2.1, Bool.false_eq_true, if_false]
      rw [ih rest h1.2 h2.2]

theorem noOcc_open_in_close_append (js : List Char)
    (h : noOccCI thinkOpen js = true) :
    noOccCI thinkOpen (thinkClose ++ js) = true := by
  simp only [thinkClose, List.cons_append, List.nil_append]
  simp only [noOccCI, Bool.and_eq_true, Bool.not_eq_true']
  refine ⟨?_, ?_, ?_, ?_, ?_, ?_, ?_, ?_, h⟩
  · exact ciStarts_false_second '<' 't' '<' '/' _ _ (by decide)
  · exact ciStarts_false_head '<' '/' _ _ (by decide)
  · exact ciStarts_false_head '<' 't' _ _ (by decide)
  · exact ciStarts_false_head '<' 'h' _ _ (by decide)
  · exact ciStarts_false_head '<' 'i' _ _ (by decide)
  · exact ciStarts_false_head '<' 'n' _ _ (by decide)
  · exact ciStarts_false_head '<' 'k' _ _ (by decide)
  · cases js with
    | nil => rfl
    | cons c rest =>
      exact ciStarts_false_head '<' '>' _ _ (by decide)

theorem removeRegions_strips_region (fuel : Nat) (mid js : List Char)
    (hmid : findCI thinkClose (mid ++ (thinkClose ++ js)) = some mid.length)
    (hOJ : noOccCI thinkOpen js = true) :
    removeRegions (fuel + 1) (thinkOpen ++ (mid ++ (thinkClose ++ js))) = js := by
  have hopen : findCI thinkOpen (thinkOpen ++ (mid ++ (thinkClose ++ js)))
      = some 0 := findCI_self _ _ (by decide)
  have h7 : thinkOpen.length = 7 := rfl
  have h8 : thinkClose.length = 8 := rfl
  simp only [removeRegions, hopen, List.drop_zero]
  rw [← h7, List.drop_left, hmid]
  split
  · rename_i heq
    cases heq
  · rename_i j heq
    injection heq with heq'
    subst heq'
    rw [show (mid ++ (thinkClose ++ js)).drop mid.length = thinkClose ++ js from
      List.drop_left mid (thinkClose ++ js)]
    rw [← h8, List.drop_left, List.take_zero, List.nil_append]
    exact removeRegions_of_none fuel js (findCI_none_of_noOcc _ _ hOJ)

theorem removeRegions_lone_open (fuel : Nat) (js : List Char)
    (h2 : noOccCI thinkClose js = true) :
    removeRegions fuel (thinkOpen ++ js) = thinkOpen ++ js := by
  cases fuel with
  | zero => rfl
  | succ n =>
    have hopen : findCI thinkOpen (thinkOpen ++ js) = some 0 :=
      findCI_self _ _ (by decide)
    have h7 : thinkOpen.length = 7 := rfl
    have hclose : findCI thinkClose (((thinkOpen ++ js).drop 0).drop 7) = none := by
      simp only [List.drop_zero]
      rw [← h7, List.drop_left]
      exact findCI_none_of_noOcc _ _ h2
    simp only [removeRegions, hopen, hclose]

theorem removeRegions_lone_close (fuel : Nat) (js : List Char)
    (hOJ : noOccCI thinkOpen js = true) :
    removeRegions fuel (thinkClose ++ js) = thinkClose ++ js := by
  cases fuel with
  | zero => rfl
  | succ n =>
    have hopen : findCI thinkOpen (thinkClose ++ js) = none :=
      findCI_none_of_noOcc _ _ (noOcc_open_in_close_append js hOJ)
    simp [removeRegions, hopen]

theorem removeLone_strips_open (fuel : Nat) (js : List Char)
    (h1 : noOccCI thinkOpen js = true) (h2 : noOccCI thinkClose js = true) :
    removeLone (fuel + 1) (thinkOpen ++ js) = js := by
  have hc : ciStarts thinkClose (thinkOpen ++ js) = false := by
    simp only [thinkOpen, thinkClose, List.cons_append]
    exact ciStarts_false_second '<' '/' '<' 't' _ _ (by decide)
  have ho : ciStarts thinkOpen (thinkOpen ++ js) = true := ciStarts_self_append _ _
  rw [show thinkOpen ++ js
      = '<' :: 't' :: 'h' :: 'i' :: 'n' :: 'k' :: '>' :: js from rfl] at hc ho ⊢
  simp only [removeLone, hc, ho, Bool.false_eq_true, if_false, if_true,
    List.drop_succ_cons, List.drop_zero]
  exact removeLone_of_noOcc fuel js h1 h2

theorem removeLone_strips_close (fuel : Nat) (js : List Char)
    (h1 : noOccCI thinkOpen js = true) (h2 : noOccCI thinkClose js = true) :
    removeLone (fuel + 1) (thinkClose ++ js) = js := by
  have hc : ciStarts thinkClose (thinkClose ++ js) = true := ciStarts_self_append _ _
  rw [show thinkClose ++ js
      = '<' :: '/' :: 't' :: 'h' :: 'i' :: 'n' :: 'k' :: '>' :: js from rfl] at hc ⊢
  simp only [removeLone, hc, if_true, List.drop_succ_cons, List.drop_zero]
  exact removeLone_of_noOcc fuel js h1 h2

/-- C4 (amended): a reasoning-marker preamble — a delimited region whose
close marker is the first one after the opening marker, or a lone open or
close marker — followed by a valid JSON object free of reasoning markers
strips away entirely, and preamble-stripping extraction recovers exactly
the object that plain extraction finds in the reply without the preamble. -/
theorem strip_think_extract (mid js : List Char) (v : Json)
    (hOJ : noOccCI thinkOpen js = true)
    (hCJ : noOccCI thinkClose js = true)
    (hv : jsonLoads js = some v) :
    ((findCI thinkClose (mid ++ (thinkClose ++ js)) = some mid.length) →
       extractJsonObject (stripThinkBlocks
         (thinkOpen ++ (mid ++ (thinkClose ++ js)))) = some v)
    ∧ extractJsonObject (stripThinkBlocks (thinkOpen ++ js)) = some v
    ∧ extractJsonObject (stripThinkBlocks (thinkClose ++ js)) = some v
    ∧ extractJsonObject js = some v := by
  have hext : extractJsonObject js = some v := by
    simp [extractJsonObject, hv]
  have h7 : thinkOpen.length = 7 := rfl
  have h8 : thinkClose.length = 8 := rfl
  refine ⟨?_, ?_, ?_, hext⟩
  · intro hmid
    have hlen : (thinkOpen ++ (mid ++ (thinkClose ++ js))).length
        = (6 + (mid.length + (8 + js.length))) + 1 := by
      simp only [List.length_append, h7, h8]
      omega
    simp only [stripThinkBlocks]
    rw [hlen, removeRegions_strips_region _ mid js hmid hOJ]
    rw [removeLone_of_noOcc _ js hOJ hCJ]
    exact hext
  · have hlen : (thinkOpen ++ js).length = (6 + js.length) + 1 := by
      simp only [List.length_append, h7]
      omega
    simp only [stripThinkBlocks]
    rw [removeRegions_lone_open _ js hCJ, hlen]
    rw [removeLone_strips_open _ js hOJ hCJ]
    exact hext
  · have hlen : (thinkClose ++ js).length = (7 + js.length) + 1 := by
      simp only [List.length_append, h8]
      omega
    simp only [stripThinkBlocks]
    rw [removeRegions_lone_close _ js hOJ, hlen]
    rw [removeLone_strips_close _ js hOJ hCJ]
    exact hext

/-- C4 counterexample: a think region followed by a valid JSON object
whose string value contains a close marker: stripping removes the marker
inside the JSON string, so preamble-stripping extraction returns a
different object than plain extraction recovers from the JSON alone. -/
theorem strip_think_counterexample :
    extractJsonObject (stripThinkBlocks
        (("<think>hi</think>\x7b\"a\": \"</think>\"\x7d").data))
      = some (Json.jobj [(("a").data, Json.jstr [])])
    ∧ extractJsonObject (("\x7b\"a\": \"</think>\"\x7d").data)
      = some (Json.jobj [(("a").data, Json.jstr (("</think>").data))])
    ∧ Json.jstr ([] : List Char) ≠ Json.jstr (("</think>").data) := by
  refine ⟨rfl, rfl, ?_⟩
  intro h
  injection h with h'
  exact absurd h' (by decide)

/-- C4 witness: a delimited-region preamble and a lone-marker preamble in
front of a concrete JSON object both strip away cleanly. -/
theorem strip_think_extract_witness :
    extractJsonObject (stripThinkBlocks (thinkOpen ++ (((" deliberating ").data)
        ++ (thinkClose ++ (("\x7b\"current_rating\": 7\x7d").data)))))
      = some (Json.jobj [(("current_rating").data, Json.jint 7)])
    ∧ extractJsonObject (stripThinkBlocks
        (thinkOpen ++ (("\x7b\"current_rating\": 7\x7d").data)))
      = some (Json.jobj [(("current_rating").data, Json.jint 7)]) := by
  have h := strip_think_extract ((" deliberating ").data)
    (("\x7b\"current_rating\": 7\x7d").data)
    (Json.jobj [(("current_rating").data, Json.jint 7)]) rfl rfl rfl
  exact ⟨h.1 rfl, h.2.1⟩

end PlayerScorers
